import Mathlib

/-!
Shallow embedding of the yagaw HTTP routing layer (router.go and the earlier
router evolution kept in the repository) together with proofs about its
route-registration and request-dispatch behaviour.

Modelling conventions:
* Go strings are Lean `String`s; character-level algorithms work on `String.data`.
  Go indexes strings by byte; this model indexes by character, which agrees on
  ASCII input (all theorems below use ASCII paths).
* A Go `map` is modelled as an association list with insert-overwrites
  semantics (`mapInsert` / `mapLookup`).  `maps.Keys` iteration order is the
  list order; no theorem below depends on the iteration order of a map with
  more than one key whose order could matter.
* A Go handler `func(rw http.ResponseWriter, req *http.Request)` is modelled as
  a pure function from the response-writer state and the request to the new
  response-writer state.
* `regexp.MustCompile` panicking is modelled by `Option`: `none` at the point
  where Go would panic, propagated through `findReqHandler`.
* The fragment of Go's regexp engine exercised by the router (literal
  characters, `(...)` groups, `[...]` character classes, postfix `+`, `^`/`$`
  anchors at the ends, and the `(?i)` flag that `matchRoutePattern` always
  prepends) is modelled by `compileKey` plus a Brzozowski-derivative matcher.
  Strings outside this fragment are rejected by `compileKey`; every key a
  theorem below compiles is inside the fragment, and on that fragment
  `compileKey` succeeds exactly where `regexp.Compile` does (in particular it
  fails on an unmatched `(`, which Go reports as a missing closing
  parenthesis).
-/

namespace Yagaw

/-! ## Association lists modelling Go maps -/

/-- Go map assignment `m[k] = v`: overwrite in place, append if absent. -/
def mapInsert {κ α : Type} [DecidableEq κ] : List (κ × α) → κ → α → List (κ × α)
  | [], k, v => [(k, v)]
  | (k', v') :: rest, k, v =>
      if k' = k then (k, v) :: rest else (k', v') :: mapInsert rest k v

/-- Go map lookup `v, ok := m[k]`. -/
def mapLookup {κ α : Type} [DecidableEq κ] : List (κ × α) → κ → Option α
  | [], _ => none
  | (k', v') :: rest, k => if k' = k then some v' else mapLookup rest k

/-! ## HTTP data model (the parts of net/http the router touches) -/

/-- Go `type HttpRequestMethod string` (router.go line 18). -/
abbrev HttpRequestMethod := String

def GET : HttpRequestMethod := "GET"
def HEAD : HttpRequestMethod := "HEAD"
def OPTIONS : HttpRequestMethod := "OPTIONS"
def TRACE : HttpRequestMethod := "TRACE"
def PUT : HttpRequestMethod := "PUT"
def DELETE : HttpRequestMethod := "DELETE"
def POST : HttpRequestMethod := "POST"
def PATCH : HttpRequestMethod := "PATCH"
def CONNECT : HttpRequestMethod := "CONNECT"

/-- The parts of `*http.Request` the router reads: `req.Method` and
`req.URL.Path`. -/
structure Request where
  method : String
  path : String

/-- The parts of `http.ResponseWriter` state the router's handlers touch:
headers (`rw.Header().Set`), the status code (`rw.WriteHeader`, which per
net/http only takes effect once), and the accumulated body. -/
structure ResponseWriter where
  headers : List (String × String)
  statusCode : Option Nat
  body : String

/-- A fresh response writer, as net/http hands one to `ServeHTTP`. -/
def newResponseWriter : ResponseWriter := ⟨[], none, ""⟩

/-- Model of `rw.Header().Set(k, v)` (replaces any existing value). -/
def setHeader (rw : ResponseWriter) (k v : String) : ResponseWriter :=
  { rw with headers := mapInsert rw.headers k v }

/-- Model of `rw.WriteHeader(code)`; net/http ignores calls after the first. -/
def writeHeader (rw : ResponseWriter) (code : Nat) : ResponseWriter :=
  { rw with statusCode := match rw.statusCode with
      | none => some code
      | some s => some s }

/-- Model of writing `s` to the response body. -/
def writeBody (rw : ResponseWriter) (s : String) : ResponseWriter :=
  { rw with body := rw.body ++ s }

/-- Go `type RequestHandler func(rw http.ResponseWriter, req *http.Request)`,
modelled as a pure state transformer on the response writer. -/
abbrev RequestHandler := ResponseWriter → Request → ResponseWriter

/-- Go `type RequestHandlerPackage struct { Handler RequestHandler;
IndexParams map[int]string }` (router.go lines 11-14).  The earlier evolution
in src/unnamed/part_001 names the second field `ParamList`; it has the same
type, so the structure is shared.  The int keys can be negative in the
part_001 scanner (`pathDepth` starts at -1), hence `Int`. -/
structure RequestHandlerPackage where
  Handler : RequestHandler
  IndexParams : List (Int × String)

/-- Go `type RequestHandlerMap map[HttpRequestMethod]map[string]RequestHandlerPackage`. -/
abbrev RequestHandlerMap := List (HttpRequestMethod × List (String × RequestHandlerPackage))

structure Router where
  routes : RequestHandlerMap

/-- Go `func NewRouter() *Router` (router.go lines 100-104). -/
def NewRouter : Router := ⟨[]⟩

/-- Go `func (r *Router) RegisteredRoutes() *RequestHandlerMap` (router.go
lines 96-98). -/
def RegisteredRoutes (r : Router) : RequestHandlerMap := r.routes

/-- Go `func routeNotFoundHandler(rw http.ResponseWriter, req *http.Request)`
(router.go lines 110-114): set Content-Type to text/plain, write status 404,
print the body line. -/
def routeNotFoundHandler : RequestHandler := fun rw _ =>
  writeBody (writeHeader (setHeader rw "Content-Type" "text/plain") 404)
    "404 - Page not found\n"

/-! ## The regexp fragment (model of Go's regexp package on the router's keys) -/

/-- Regular-expression ASTs for the fragment of Go regexp syntax the router's
stored keys use. -/
inductive Regex where
  | fail
  | eps
  | lit (c : Char)
  | cls (ranges : List (Char × Char))
  | seq (r1 r2 : Regex)
  | alt (r1 r2 : Regex)
  | star (r : Regex)
deriving Repr, DecidableEq

/-- ASCII lower-casing, the case folding relevant to `(?i)` on the router's
ASCII keys. -/
def asciiLower (c : Char) : Char :=
  if decide ('A' ≤ c) && decide (c ≤ 'Z') then Char.ofNat (c.toNat + 32) else c

/-- ASCII upper-casing. -/
def asciiUpper (c : Char) : Char :=
  if decide ('a' ≤ c) && decide (c ≤ 'z') then Char.ofNat (c.toNat - 32) else c

/-- Case-insensitive character comparison, the `(?i)` semantics on literals. -/
def charEqCI (c d : Char) : Bool := asciiLower c == asciiLower d

def inRanges (ranges : List (Char × Char)) (d : Char) : Bool :=
  ranges.any fun p => decide (p.1 ≤ d) && decide (d ≤ p.2)

/-- Case-insensitive character-class membership: `(?i)` lets a class match any
case folding of the input character. -/
def clsMatchCI (ranges : List (Char × Char)) (d : Char) : Bool :=
  inRanges ranges d || inRanges ranges (asciiLower d) || inRanges ranges (asciiUpper d)

def nullable : Regex → Bool
  | .fail => false
  | .eps => true
  | .lit _ => false
  | .cls _ => false
  | .seq a b => nullable a && nullable b
  | .alt a b => nullable a || nullable b
  | .star _ => true

/-- Brzozowski derivative with case-insensitive character matching. -/
def regexDeriv : Regex → Char → Regex
  | .fail, _ => .fail
  | .eps, _ => .fail
  | .lit c, d => if charEqCI c d then .eps else .fail
  | .cls rs, d => if clsMatchCI rs d then .eps else .fail
  | .seq a b, d =>
      if nullable a then .alt (.seq (regexDeriv a d) b) (regexDeriv b d)
      else .seq (regexDeriv a d) b
  | .alt a b, d => .alt (regexDeriv a d) (regexDeriv b d)
  | .star r, d => .seq (regexDeriv r d) (.star r)

/-- Does `r` match the whole string `s`? -/
def matchesFull (r : Regex) (s : List Char) : Bool :=
  nullable (s.foldl regexDeriv r)

/-- Length of the longest prefix of `s` matching `r` (`none` if no prefix,
including the empty one, matches). -/
def maxPrefixLen (r : Regex) : List Char → Option Nat
  | [] => if nullable r then some 0 else none
  | c :: rest =>
      match maxPrefixLen (regexDeriv r c) rest with
      | some n => some (n + 1)
      | none => if nullable r then some 0 else none

/-- Leftmost match length for an unanchored regex, scanning start positions
left to right (the semantics of `FindString` up to match length, which for the
router's keys — none of which can match the empty string unless the whole key
is empty — agrees with Go's leftmost-first rule). -/
def findNoAnchor (r : Regex) : List Char → Option Nat
  | [] => if nullable r then some 0 else none
  | c :: rest =>
      match maxPrefixLen r (c :: rest) with
      | some n => some n
      | none => findNoAnchor r rest

/-- Leftmost match length for a regex anchored only at the end: the match must
run to the end of the string. -/
def findEndAnchored (r : Regex) : List Char → Option Nat
  | [] => if nullable r then some 0 else none
  | c :: rest =>
      if matchesFull r (c :: rest) then some (rest.length + 1)
      else findEndAnchored r rest

/-- A compiled key: the `^` / `$` anchors the router puts at the ends of
pattern keys, plus the regex for the body. -/
structure CompiledRegex where
  anchorStart : Bool
  anchorEnd : Bool
  re : Regex
deriving Repr, DecidableEq

/-- Length of the match `FindString` would return, `none` when there is no
match at all. -/
def findStringLen (cr : CompiledRegex) (s : List Char) : Option Nat :=
  match cr.anchorStart, cr.anchorEnd with
  | true, true => if matchesFull cr.re s then some s.length else none
  | true, false => maxPrefixLen cr.re s
  | false, true => findEndAnchored cr.re s
  | false, false => findNoAnchor cr.re s

/-- Model of `len(re.FindString(path)) != 0` in `matchRoutePattern`. -/
def findStringNonEmpty (cr : CompiledRegex) (s : String) : Bool :=
  match findStringLen cr s.data with
  | some n => n != 0
  | none => false

/-- Characters that stand for themselves in the modelled regexp fragment. -/
def isLitChar (c : Char) : Bool :=
  !(c == '(' || c == ')' || c == '[' || c == ']' || c == '{' || c == '}' ||
    c == '*' || c == '+' || c == '?' || c == '|' || c == '\\' || c == '.' ||
    c == '^' || c == '$')

/-- Parse the items of a character class after `[`, up to the closing `]`.
A `-` between two characters is a range; a trailing `-` is a literal. -/
def parseClassItems (fuel : Nat) (s : List Char) (acc : List (Char × Char)) :
    Option (List (Char × Char) × List Char) :=
  match fuel with
  | 0 => none
  | fuel + 1 =>
    match s with
    | [] => none
    | ']' :: rest => some (acc, rest)
    | c :: rest =>
      if c == '\\' || c == '[' then none
      else
        match rest with
        | '-' :: d :: rest' =>
          if d == ']' then parseClassItems fuel rest (acc ++ [(c, c)])
          else if d == '\\' || d == '[' || d == ']' then none
          else parseClassItems fuel rest' (acc ++ [(c, d)])
        | _ => parseClassItems fuel rest (acc ++ [(c, c)])

/-- Recursive-descent compilation of the regexp fragment: a sequence of atoms
(literal character, `(...)` group, `[...]` class), each optionally followed by
`+`.  Stops at `)` or the end of input; returns `none` exactly where
`regexp.Compile` reports a syntax error on this fragment (e.g. a `(` with no
closing `)`). -/
def parseAtoms (fuel : Nat) (s : List Char) (acc : Regex) :
    Option (Regex × List Char) :=
  match fuel with
  | 0 => none
  | fuel + 1 =>
    match s with
    | [] => some (acc, [])
    | ')' :: rest => some (acc, ')' :: rest)
    | '(' :: rest =>
      (match rest with
       | '?' :: _ => none
       | _ =>
         match parseAtoms fuel rest Regex.eps with
         | some (r, ')' :: rest') =>
           (match rest' with
            | '+' :: rest'' =>
                parseAtoms fuel rest'' (Regex.seq acc (Regex.seq r (Regex.star r)))
            | _ => parseAtoms fuel rest' (Regex.seq acc r))
         | _ => none)
    | '[' :: rest =>
      (match rest with
       | '^' :: _ => none
       | _ =>
         match parseClassItems fuel rest [] with
         | some (ranges, rest') =>
           (match rest' with
            | '+' :: rest'' =>
                parseAtoms fuel rest''
                  (Regex.seq acc (Regex.seq (Regex.cls ranges) (Regex.star (Regex.cls ranges))))
            | _ => parseAtoms fuel rest' (Regex.seq acc (Regex.cls ranges)))
         | none => none)
    | c :: rest =>
      if isLitChar c then
        match rest with
        | '+' :: rest' =>
            parseAtoms fuel rest' (Regex.seq acc (Regex.seq (Regex.lit c) (Regex.star (Regex.lit c))))
        | _ => parseAtoms fuel rest (Regex.seq acc (Regex.lit c))
      else none

/-- Model of `regexp.Compile("(?i)" + k)` on the router's keys: the `(?i)` is
reflected in the case-insensitive matcher, a leading `^` and a trailing `$`
become anchors, the rest is compiled by `parseAtoms`.  `none` models a
`regexp.MustCompile` panic. -/
def compileKey (k : String) : Option CompiledRegex :=
  let s := k.data
  let aStart := s.head? == some '^'
  let s1 := if aStart then s.tail else s
  let aEnd := s1.getLast? == some '$'
  let s2 := if aEnd then s1.dropLast else s1
  match parseAtoms (s2.length + 1) s2 Regex.eps with
  | some (r, []) => some ⟨aStart, aEnd, r⟩
  | _ => none

/-! ## The dispatcher (router.go lines 36-76) -/

/-- Go `func matchRoutePattern(keysIter iter.Seq[string], path string)
(string, bool)` (router.go lines 67-76): for each key in iteration order,
compile `"(?i)" + k` (panic — modelled `none` — on a syntax error) and return
the first key whose `FindString` result is non-empty. -/
def matchRoutePattern : List String → String → Option (String × Bool)
  | [], _ => some ("", false)
  | k :: rest, path =>
    match compileKey k with
    | none => none
    | some cr =>
        if findStringNonEmpty cr path then some (k, true)
        else matchRoutePattern rest path

/-- Go's zero value for a map miss `r.routes[m][path]` whose key is absent:
a package with a nil `Handler`.  `findReqHandler` only reads it for a key that
`matchRoutePattern` returned, which always is in the map (so this value is
never produced; see the dispatch theorems). -/
def nilHandler : RequestHandler := fun rw _ => rw

/-- Go `func (r *Router) findReqHandler(req *http.Request) (RequestHandler,
error)` (router.go lines 45-65).  The outer `Option` models the
`regexp.MustCompile` panic escaping from `matchRoutePattern`; the inner
`Option String` is the returned `error` value. -/
def findReqHandler (r : Router) (req : Request) :
    Option (RequestHandler × Option String) :=
  match mapLookup r.routes req.method with
  | none => some (routeNotFoundHandler, none)
  | some methodRoutes =>
    match mapLookup methodRoutes req.path with
    | some pkg => some (pkg.Handler, none)
    | none =>
      match matchRoutePattern (methodRoutes.map Prod.fst) req.path with
      | none => none
      | some (path, matchFound) =>
        if matchFound then
          some (((mapLookup methodRoutes path).getD ⟨nilHandler, []⟩).Handler, none)
        else
          some (routeNotFoundHandler, none)

/-- The observable outcomes of one `ServeHTTP` call: the handler ran to
completion, `Log.FatalError` terminated the process, or a panic escaped. -/
inductive ServeOutcome where
  | completed (rw : ResponseWriter)
  | fatal (err : String)
  | panicked

/-- Go `func (r *Router) ServeHTTP(rw http.ResponseWriter, req *http.Request)`
(router.go lines 36-43); the `debugRequest` log line has no modelled effect. -/
def ServeHTTP (r : Router) (req : Request) (rw : ResponseWriter) : ServeOutcome :=
  match findReqHandler r req with
  | none => .panicked
  | some (_, some e) => .fatal e
  | some (h, none) => .completed (h rw req)

/-- Does a `ServeHTTP` call take the `Log.FatalError` branch? -/
def isFatalOutcome : ServeOutcome → Bool
  | .fatal _ => true
  | _ => false

/-! ## Route registration (router.go lines 78-94) -/

/-- The character set `[a-z0-9-_]` matched case-insensitively — the characters
the registration regex `(?i)({[a-z0-9-_]+})` allows inside a placeholder
name. -/
def placeholderCharCI (c : Char) : Bool :=
  (decide ('a' ≤ c) && decide (c ≤ 'z')) ||
  (decide ('A' ≤ c) && decide (c ≤ 'Z')) ||
  (decide ('0' ≤ c) && decide (c ≤ '9')) ||
  c == '-' || c == '_'

/-- Model of `re.FindStringIndex(path) != nil` for the fixed registration
regex `(?i)({[a-z0-9-_]+})`: does the string contain a `{`, then one or more
characters from the (case-folded) class, then a `}`?  The scanner state is
`none` outside a candidate span and `some b` inside one, where `b` records
whether at least one class character has been seen since the `{`. -/
def hasPlaceholder : Option Bool → List Char → Bool
  | _, [] => false
  | none, c :: rest =>
      if c == '{' then hasPlaceholder (some false) rest
      else hasPlaceholder none rest
  | some b, c :: rest =>
      if c == '}' then b || hasPlaceholder none rest
      else if c == '{' then hasPlaceholder (some false) rest
      else if placeholderCharCI c then hasPlaceholder (some true) rest
      else hasPlaceholder none rest

/-- The replacement text `([a-z0-9-_]+)` (router.go line 92). -/
def captureGroup : List Char := "([a-z0-9-_]+)".data

/-- Model of `re.ReplaceAllString(path, "([a-z0-9-_]+)")` for the fixed
registration regex: replace every non-overlapping, leftmost-first occurrence
of `{name}` (with `name` non-empty and inside the case-folded class) by the
capture group, leaving everything else unchanged.  The state `some p` means a
`{` has been read and `p` is the run of class characters seen since. -/
def replAux : Option (List Char) → List Char → List Char
  | none, [] => []
  | some p, [] => '{' :: p
  | none, c :: rest =>
      if c == '{' then replAux (some []) rest
      else c :: replAux none rest
  | some p, c :: rest =>
      if c == '}' then
        if p.isEmpty then '{' :: '}' :: replAux none rest
        else captureGroup ++ replAux none rest
      else if c == '{' then ('{' :: p) ++ replAux (some []) rest
      else if placeholderCharCI c then replAux (some (p ++ [c])) rest
      else ('{' :: p) ++ (c :: replAux none rest)

def replacePlaceholders (s : List Char) : List Char := replAux none s

/-- Insertion into the two-level route table: Go's `if r.routes[method] == nil
{ r.routes[method] = make(...) }` followed by `r.routes[method][key] = pkg`
(a nil map and an absent entry behave alike). -/
def routesInsert (routes : RequestHandlerMap) (method : HttpRequestMethod)
    (key : String) (pkg : RequestHandlerPackage) : RequestHandlerMap :=
  mapInsert routes method (mapInsert ((mapLookup routes method).getD []) key pkg)

/-- Go `func (r *Router) RegisterRoute(method HttpRequestMethod, path string,
handler RequestHandler)` (router.go lines 78-94): if the detection regex finds
no placeholder, store the literal path; otherwise store the path with every
placeholder replaced by the capture group, anchored with `^` and `$`.
`IndexParams` is never assigned in this version, so it stays empty. -/
def RegisterRoute (r : Router) (method : HttpRequestMethod) (path : String)
    (handler : RequestHandler) : Router :=
  if hasPlaceholder none path.data then
    let newPath := "^" ++ String.mk (replacePlaceholders path.data) ++ "$"
    ⟨routesInsert r.routes method newPath ⟨handler, []⟩⟩
  else
    ⟨routesInsert r.routes method path ⟨handler, []⟩⟩

/-! ## The earlier route-registration evolution (src/unnamed/part_001 lines 179-234)

That version of `RegisterRoute` scans the path character by character, tracking
the `/`-depth, collects the placeholder spans with their depth and name, builds
the pattern key by splicing the capture group over each span, always anchors
the key with `^` and `$`, and stores the depth-to-name map in the package
(field `ParamList` there; `IndexParams` in the shared structure here). -/

/-- Go's local `type paramSearch struct { start, end, pos int; name string }`.
`stop` models the Go field `end` (a Lean keyword); `pos` starts from a
`pathDepth` of -1, hence `Int`. -/
structure ParamSearch where
  start : Nat
  stop : Nat
  pos : Int
  name : String
deriving Repr, DecidableEq

/-- The mutable locals of the scanning loop: `paramList`, `pathDepth`,
`found`, `foundAt`, `paramNameBuilder`. -/
structure ScanState where
  params : List ParamSearch
  pathDepth : Int
  found : Bool
  foundAt : Nat
  nameBuilder : List Char
deriving Repr, DecidableEq

/-- One iteration of `for i, c := range path`: the `switch` on `c`, then the
`if found && c != '{'` append to the name builder (which sees the `found`
value just updated by the switch). -/
def scanStep (i : Nat) (st : ScanState) (c : Char) : ScanState :=
  let st1 :=
    if c == '/' then { st with pathDepth := st.pathDepth + 1 }
    else if c == '{' then { st with found := true, foundAt := i }
    else if c == '}' then
      { st with found := false
              , params := st.params ++
                  [{ start := st.foundAt, stop := i, pos := st.pathDepth,
                     name := String.mk st.nameBuilder }]
              , nameBuilder := [] }
    else st
  if st1.found && !(c == '{') then { st1 with nameBuilder := st1.nameBuilder ++ [c] }
  else st1

/-- The scanning loop itself; `i` is Go's byte index (character index here,
identical on the ASCII paths the theorems use). -/
def scanParamsAux (i : Nat) (st : ScanState) : List Char → ScanState
  | [] => st
  | c :: rest => scanParamsAux (i + 1) (scanStep i st c) rest

def scanParams (path : List Char) : ScanState :=
  scanParamsAux 0 ⟨[], -1, false, 0, []⟩ path

/-- The mutable locals of the building loop: `pathBuilder`, `lastPos`,
`reqParamList`. -/
structure BuildState where
  out : List Char
  lastPos : Nat
  paramMap : List (Int × String)

/-- One iteration of the building loop over `paramList`: splice the literal
text up to the span, emit the capture group, record `pos ↦ name`. -/
def buildStep (path : List Char) (bs : BuildState) (p : ParamSearch) : BuildState :=
  { out := bs.out ++ ((path.drop bs.lastPos).take (p.start - bs.lastPos)) ++ captureGroup
  , lastPos := p.stop + 1
  , paramMap := mapInsert bs.paramMap p.pos p.name }

/-- The pure computation of part_001's `RegisterRoute`: the stored key
(`"^" + rebuilt + "$"`, always anchored) and the stored `ParamList`. -/
def buildRouteV2 (path : String) : String × List (Int × String) :=
  let ps := (scanParams path.data).params
  let bs := ps.foldl (buildStep path.data) ⟨[], 0, []⟩
  ("^" ++ String.mk (bs.out ++ path.data.drop bs.lastPos) ++ "$", bs.paramMap)

/-- Go `func (r *Router) RegisterRoute(...)` from src/unnamed/part_001
lines 179-234. -/
def RegisterRouteV2 (r : Router) (method : HttpRequestMethod) (path : String)
    (handler : RequestHandler) : Router :=
  ⟨routesInsert r.routes method (buildRouteV2 path).1
    ⟨handler, (buildRouteV2 path).2⟩⟩

/-! ## Structured paths

A registered path of the usual shape `/seg0/seg1/.../segn`, where every
segment is either a literal or a single whole-segment placeholder `{name}`.
These definitions follow the spec's vocabulary (placeholder spans, the
capture-group replacement, zero-based segment depth) and are related to the
source-derived registration functions by the theorems below. -/

inductive PathSeg where
  | litSeg (s : String)
  | paramSeg (name : String)
deriving Repr, DecidableEq

def isParamSeg : PathSeg → Bool
  | .litSeg _ => false
  | .paramSeg _ => true

/-- The text of one segment as written in the registered path. -/
def segText : PathSeg → List Char
  | .litSeg s => s.data
  | .paramSeg name => '{' :: name.data ++ ['}']

/-- The text of one segment in the pattern key: placeholder spans are replaced
by the capture group (the spec's description of the Route Key). -/
def segPattern : PathSeg → List Char
  | .litSeg s => s.data
  | .paramSeg _ => captureGroup

def renderPathChars : List PathSeg → List Char
  | [] => []
  | seg :: rest => '/' :: segText seg ++ renderPathChars rest

/-- The registered path `/seg0/.../segn`. -/
def renderPath (segs : List PathSeg) : String := String.mk (renderPathChars segs)

def renderPatternChars : List PathSeg → List Char
  | [] => []
  | seg :: rest => '/' :: segPattern seg ++ renderPatternChars rest

/-- The spec-side pattern body: the path with every placeholder span replaced
by the capture group. -/
def renderPattern (segs : List PathSeg) : String := String.mk (renderPatternChars segs)

/-- Well-formedness of a segment: a literal segment contains no brace and no
slash; a placeholder name is non-empty and drawn from the (case-folded)
placeholder character set. -/
def wfSeg : PathSeg → Bool
  | .litSeg s => s.data.all fun c => !(c == '{' || c == '}' || c == '/')
  | .paramSeg name => !name.data.isEmpty && name.data.all placeholderCharCI

/-- The spec-side parameter map of a structured path whose segments start at
depth `d + 1` (the depth a leading `/` produces from depth `d`): each
placeholder segment's zero-based depth paired with its name, left to right. -/
def expectedParams : List PathSeg → Int → List (Int × String)
  | [], _ => []
  | .litSeg _ :: rest, d => expectedParams rest (d + 1)
  | .paramSeg name :: rest, d => (d + 1, name) :: expectedParams rest (d + 1)

/-- A concrete handler used by the concrete-input theorems; its response (body
`"A"`, no status write) is distinguishable from the not-found response. -/
def handlerA : RequestHandler := fun rw _ => { rw with body := rw.body ++ "A" }

/-- A second concrete handler, for scenarios with two registered routes. -/
def handlerB : RequestHandler := fun rw _ => { rw with body := rw.body ++ "B" }

/-! ## Association-list lemmas -/

theorem mapLookup_insert_self {κ α : Type} [DecidableEq κ]
    (m : List (κ × α)) (k : κ) (v : α) :
    mapLookup (mapInsert m k v) k = some v := by
  induction m with
  | nil => simp [mapInsert, mapLookup]
  | cons kv rest ih =>
    obtain ⟨k', v'⟩ := kv
    by_cases hk : k' = k
    · simp [mapInsert, mapLookup, hk]
    · simp [mapInsert, mapLookup, hk, ih]

theorem mapLookup_insert_ne {κ α : Type} [DecidableEq κ]
    (m : List (κ × α)) (k k' : κ) (v : α) (hne : k' ≠ k) :
    mapLookup (mapInsert m k' v) k = mapLookup m k := by
  induction m with
  | nil => simp [mapInsert, mapLookup, hne]
  | cons kv rest ih =>
    obtain ⟨k'', v''⟩ := kv
    by_cases hk : k'' = k'
    · subst hk
      simp [mapInsert, mapLookup, hne]
    · simp [mapInsert, mapLookup, hk, ih]

theorem mapLookup_foldl_insert_not_mem {κ α : Type} [DecidableEq κ]
    (pairs : List (κ × α)) (m : List (κ × α)) (k : κ)
    (h : k ∉ pairs.map Prod.fst) :
    mapLookup (pairs.foldl (fun acc q => mapInsert acc q.1 q.2) m) k = mapLookup m k := by
  induction pairs generalizing m with
  | nil => rfl
  | cons q rest ih =>
    simp only [List.map_cons, List.mem_cons, not_or] at h
    simp only [List.foldl_cons]
    rw [ih (mapInsert m q.1 q.2) h.2, mapLookup_insert_ne m k q.1 q.2 (fun hq => h.1 hq.symm)]

theorem mapLookup_foldl_insert_mem {κ α : Type} [DecidableEq κ]
    (pairs : List (κ × α)) (m : List (κ × α)) (k : κ) (v : α)
    (hmem : (k, v) ∈ pairs) (hnd : (pairs.map Prod.fst).Nodup) :
    mapLookup (pairs.foldl (fun acc q => mapInsert acc q.1 q.2) m) k = some v := by
  induction pairs generalizing m with
  | nil => cases hmem
  | cons q rest ih =>
    simp only [List.map_cons, List.nodup_cons] at hnd
    rcases List.mem_cons.mp hmem with hq | hq
    · subst hq
      simp only [List.foldl_cons]
      rw [mapLookup_foldl_insert_not_mem rest (mapInsert m k v) k hnd.1]
      exact mapLookup_insert_self m k v
    · simp only [List.foldl_cons]
      exact ih (mapInsert m q.1 q.2) hq hnd.2

/-! ## Character-level facts about the placeholder character set -/

theorem placeholderCharCI_not_special (c : Char) (h : placeholderCharCI c = true) :
    c ≠ '{' ∧ c ≠ '}' ∧ c ≠ '/' := by
  refine ⟨?_, ?_, ?_⟩ <;> rintro rfl <;> exact absurd h (by decide)

/-! ## Detection-regex lemmas (`hasPlaceholder`) -/

theorem hasPlaceholder_append_lit (l r : List Char) (h : ∀ c ∈ l, c ≠ '{') :
    hasPlaceholder none (l ++ r) = hasPlaceholder none r := by
  induction l with
  | nil => rfl
  | cons c rest ih =>
    have hc : (c == '{') = false := beq_eq_false_iff_ne.mpr (h c (by simp))
    simp only [List.cons_append, hasPlaceholder, hc, Bool.false_eq_true, if_neg, ite_false]
    exact ih (fun d hd => h d (by simp [hd]))

theorem hasPlaceholder_run_true (name r : List Char)
    (h : ∀ c ∈ name, placeholderCharCI c = true) :
    hasPlaceholder (some true) (name ++ '}' :: r) = true := by
  induction name with
  | nil => simp [hasPlaceholder]
  | cons c rest ih =>
    have hc := placeholderCharCI_not_special c (h c (by simp))
    have hc1 : (c == '}') = false := beq_eq_false_iff_ne.mpr hc.2.1
    have hc2 : (c == '{') = false := beq_eq_false_iff_ne.mpr hc.1
    simp only [List.cons_append, hasPlaceholder, hc1, hc2, h c (by simp),
      Bool.false_eq_true, if_neg, ite_false, if_pos, ite_true]
    exact ih (fun d hd => h d (by simp [hd]))

theorem hasPlaceholder_span (name r : List Char)
    (hne : name ≠ []) (h : ∀ c ∈ name, placeholderCharCI c = true) :
    hasPlaceholder none ('{' :: name ++ '}' :: r) = true := by
  cases name with
  | nil => exact absurd rfl hne
  | cons c rest =>
    have hc := placeholderCharCI_not_special c (h c (by simp))
    have hc1 : (c == '}') = false := beq_eq_false_iff_ne.mpr hc.2.1
    have hc2 : (c == '{') = false := beq_eq_false_iff_ne.mpr hc.1
    simp only [List.cons_append, hasPlaceholder, hc1, hc2, h c (by simp),
      Bool.false_eq_true, if_neg, ite_false, if_pos, ite_true, beq_self_eq_true]
    exact hasPlaceholder_run_true rest r (fun d hd => h d (by simp [hd]))

theorem hasPlaceholder_renderPath (segs : List PathSeg)
    (hwf : ∀ s ∈ segs, wfSeg s = true) :
    hasPlaceholder none (renderPathChars segs) = segs.any isParamSeg := by
  induction segs with
  | nil => rfl
  | cons seg rest ih =>
    cases seg with
    | litSeg s =>
      have hs : ∀ c ∈ s.data, c ≠ '{' := by
        intro c hc
        have := List.all_eq_true.mp (hwf (.litSeg s) (by simp)) c hc
        simp only [Bool.not_eq_true', Bool.or_eq_false_iff] at this
        exact fun hq => by simp [hq] at this
      have : hasPlaceholder none ('/' :: s.data ++ renderPathChars rest) =
          hasPlaceholder none (renderPathChars rest) :=
        hasPlaceholder_append_lit ('/' :: s.data) (renderPathChars rest)
          (by intro c hc
              rcases List.mem_cons.mp hc with h | h
              · subst h; decide
              · exact hs c h)
      simp only [renderPathChars, segText, List.cons_append]
      simp only [List.cons_append] at this
      rw [this, ih (fun t ht => hwf t (by simp [ht]))]
      simp [isParamSeg, List.any_cons]
    | paramSeg name =>
      have hn := hwf (.paramSeg name) (by simp)
      simp only [wfSeg, Bool.and_eq_true, Bool.not_eq_true'] at hn
      have hne : name.data ≠ [] := by
        have := hn.1
        simpa [List.isEmpty_iff] using this
      have hchars : ∀ c ∈ name.data, placeholderCharCI c = true :=
        List.all_eq_true.mp hn.2
      simp only [renderPathChars, segText, List.cons_append, List.append_assoc,
        List.singleton_append, List.nil_append]
      have hstep : hasPlaceholder none ('/' :: '{' :: (name.data ++ '}' :: renderPathChars rest)) =
          hasPlaceholder none ('{' :: (name.data ++ '}' :: renderPathChars rest)) := by
        simp [hasPlaceholder]
      rw [hstep]
      rw [show ('{' :: (name.data ++ '}' :: renderPathChars rest)) =
        ('{' :: name.data) ++ ('}' :: renderPathChars rest) by simp]
      rw [hasPlaceholder_span name.data (renderPathChars rest) hne hchars]
      simp [isParamSeg, List.any_cons]

/-! ## Replacement-regex lemmas (`replAux`) -/

theorem replAux_append_lit (l r : List Char) (h : ∀ c ∈ l, c ≠ '{') :
    replAux none (l ++ r) = l ++ replAux none r := by
  induction l with
  | nil => rfl
  | cons c rest ih =>
    have hc : (c == '{') = false := beq_eq_false_iff_ne.mpr (h c (by simp))
    simp only [List.cons_append, replAux, hc, Bool.false_eq_true, if_neg, ite_false,
      List.cons.injEq, true_and]
    exact ih (fun d hd => h d (by simp [hd]))

theorem replAux_run (name p r : List Char)
    (h : ∀ c ∈ name, placeholderCharCI c = true) (hne : p ++ name ≠ []) :
    replAux (some p) (name ++ '}' :: r) = captureGroup ++ replAux none r := by
  induction name generalizing p with
  | nil =>
    have hp : p.isEmpty = false := by
      simp only [List.append_nil] at hne
      simpa [List.isEmpty_iff] using hne
    simp [replAux, hp]
  | cons c rest ih =>
    have hc := placeholderCharCI_not_special c (h c (by simp))
    have hc1 : (c == '}') = false := beq_eq_false_iff_ne.mpr hc.2.1
    have hc2 : (c == '{') = false := beq_eq_false_iff_ne.mpr hc.1
    simp only [List.cons_append, replAux, hc1, hc2, h c (by simp),
      Bool.false_eq_true, if_neg, ite_false, if_pos, ite_true]
    exact ih (p ++ [c]) (fun d hd => h d (by simp [hd])) (by simp)

theorem replAux_span (name r : List Char)
    (hne : name ≠ []) (h : ∀ c ∈ name, placeholderCharCI c = true) :
    replAux none ('{' :: name ++ '}' :: r) = captureGroup ++ replAux none r := by
  have : replAux none ('{' :: name ++ '}' :: r) = replAux (some []) (name ++ '}' :: r) := by
    simp [replAux]
  rw [this]
  exact replAux_run name [] r h (by simpa using hne)

theorem replacePlaceholders_renderPath (segs : List PathSeg)
    (hwf : ∀ s ∈ segs, wfSeg s = true) :
    replacePlaceholders (renderPathChars segs) = renderPatternChars segs := by
  unfold replacePlaceholders
  induction segs with
  | nil => rfl
  | cons seg rest ih =>
    cases seg with
    | litSeg s =>
      have hs : ∀ c ∈ ('/' :: s.data), c ≠ '{' := by
        intro c hc
        rcases List.mem_cons.mp hc with h | h
        · subst h; decide
        · have := List.all_eq_true.mp (hwf (.litSeg s) (by simp)) c h
          simp only [Bool.not_eq_true', Bool.or_eq_false_iff] at this
          exact fun hq => by simp [hq] at this
      simp only [renderPathChars, renderPatternChars, segText, segPattern, List.cons_append]
      have hlit := replAux_append_lit ('/' :: s.data) (renderPathChars rest) hs
      simp only [List.cons_append] at hlit
      rw [hlit, ih (fun t ht => hwf t (by simp [ht]))]
    | paramSeg name =>
      have hn := hwf (.paramSeg name) (by simp)
      simp only [wfSeg, Bool.and_eq_true, Bool.not_eq_true'] at hn
      have hne : name.data ≠ [] := by
        have := hn.1
        simpa [List.isEmpty_iff] using this
      have hchars : ∀ c ∈ name.data, placeholderCharCI c = true :=
        List.all_eq_true.mp hn.2
      simp only [renderPathChars, renderPatternChars, segText, segPattern, List.cons_append,
        List.append_assoc, List.singleton_append, List.nil_append]
      have hslash : replAux none ('/' :: '{' :: (name.data ++ '}' :: renderPathChars rest)) =
          '/' :: replAux none ('{' :: (name.data ++ '}' :: renderPathChars rest)) := by
        simp [replAux]
      rw [hslash]
      rw [show ('{' :: (name.data ++ '}' :: renderPathChars rest)) =
        ('{' :: name.data) ++ ('}' :: renderPathChars rest) by simp]
      rw [replAux_span name.data (renderPathChars rest) hne hchars,
        ih (fun t ht => hwf t (by simp [ht]))]

/-! ## Key construction (claim C3) -/

/-- C3: for every router, method, handler and well-formed structured path,
`RegisterRoute` stores the route under the literal path as given when the path
contains no placeholder, and otherwise under the path with every placeholder
span replaced by the capture group `([a-z0-9-_]+)`, prefixed with `^` and
suffixed with `$`. -/
theorem c3_register_route_key (r : Router) (m : HttpRequestMethod)
    (segs : List PathSeg) (h : RequestHandler)
    (hwf : ∀ s ∈ segs, wfSeg s = true) :
    (RegisterRoute r m (renderPath segs) h).routes =
      routesInsert r.routes m
        (if segs.any isParamSeg then "^" ++ renderPattern segs ++ "$" else renderPath segs)
        ⟨h, []⟩ := by
  have key : hasPlaceholder none (renderPath segs).data = segs.any isParamSeg := by
    have hd : (renderPath segs).data = renderPathChars segs := rfl
    rw [hd]
    exact hasPlaceholder_renderPath segs hwf
  unfold RegisterRoute
  rw [key]
  cases hP : segs.any isParamSeg with
  | false => simp [hP]
  | true =>
    have key2 : String.mk (replacePlaceholders (renderPath segs).data) = renderPattern segs := by
      have hd : (renderPath segs).data = renderPathChars segs := rfl
      rw [hd, replacePlaceholders_renderPath segs hwf]
      rfl
    simp only [ite_true]
    rw [key2]

/-- Registering `/users/{name}` for any non-empty placeholder name drawn from
the (case-folded) placeholder character set yields exactly the anchored
capture-group key; shared by the C5 and C7 theorems. -/
theorem register_users_param (name : String) (h : RequestHandler)
    (hne : name.data ≠ []) (hchars : ∀ c ∈ name.data, placeholderCharCI c = true) :
    RegisterRoute NewRouter "GET" ("/users/\x7b" ++ name ++ "\x7d") h =
      ⟨[("GET", [("^/users/([a-z0-9-_]+)$", ⟨h, []⟩)])]⟩ := by
  have hdata : ("/users/\x7b" ++ name ++ "\x7d").data =
      ('/' :: 'u' :: 's' :: 'e' :: 'r' :: 's' :: '/' :: []) ++
        (('{' :: name.data) ++ ('}' :: [])) := by
    rw [String.data_append, String.data_append]
    show ('/' :: 'u' :: 's' :: 'e' :: 'r' :: 's' :: '/' :: '{' :: []) ++ name.data ++
        ('}' :: []) = _
    simp
  unfold RegisterRoute
  rw [hdata]
  rw [hasPlaceholder_append_lit _ _ (by decide),
    hasPlaceholder_span name.data [] hne hchars]
  simp only [ite_true]
  unfold replacePlaceholders
  rw [replAux_append_lit _ _ (by decide), replAux_span name.data [] hne hchars]
  rfl

/-- Witness for C3 at the concrete structured path `/api/{id}`. -/
theorem c3_register_route_key_witness :
    (∀ s ∈ [PathSeg.litSeg "api", PathSeg.paramSeg "id"], wfSeg s = true) ∧
    (RegisterRoute NewRouter "GET"
        (renderPath [PathSeg.litSeg "api", PathSeg.paramSeg "id"]) handlerA).routes =
      routesInsert NewRouter.routes "GET"
        (if [PathSeg.litSeg "api", PathSeg.paramSeg "id"].any isParamSeg then
          "^" ++ renderPattern [PathSeg.litSeg "api", PathSeg.paramSeg "id"] ++ "$"
         else renderPath [PathSeg.litSeg "api", PathSeg.paramSeg "id"])
        ⟨handlerA, []⟩ :=
  ⟨by decide,
   c3_register_route_key NewRouter "GET" [PathSeg.litSeg "api", PathSeg.paramSeg "id"]
     handlerA (by decide)⟩

/-! ## Placeholder detection at registration (claim C5) -/

/-- C5 counterexample: the path `/users/{i+d}` contains a brace-delimited span
`{i+d}`, yet `RegisterRoute` does not treat it as a placeholder — the
detection regex `(?i)({[a-z0-9-_]+})` rejects the name `i+d`, so the path is
stored as a literal key, not as a pattern key. -/
theorem c5_brace_span_stored_literally :
    (RegisterRoute NewRouter "GET" "/users/{i+d}" handlerA).routes =
      [("GET", [("/users/{i+d}", ⟨handlerA, []⟩)])] := rfl

/-- C5 (amended): at registration, a brace-delimited span `{name}` is treated
as a placeholder exactly when `name` is non-empty and each of its characters
matches `[a-z0-9-_]` case-insensitively; every such path is stored as a
pattern key. -/
theorem c5_amended_charset_detection (name : String) (h : RequestHandler)
    (hne : name.data ≠ []) (hchars : ∀ c ∈ name.data, placeholderCharCI c = true) :
    (RegisterRoute NewRouter "GET" ("/users/\x7b" ++ name ++ "\x7d") h).routes =
      [("GET", [("^/users/([a-z0-9-_]+)$", ⟨h, []⟩)])] := by
  rw [register_users_param name h hne hchars]

/-- Witness for the amended C5 at the mixed-case name `Id-9`. -/
theorem c5_amended_charset_detection_witness :
    ("Id-9" : String).data ≠ [] ∧
    (∀ c ∈ ("Id-9" : String).data, placeholderCharCI c = true) ∧
    (RegisterRoute NewRouter "GET" ("/users/\x7b" ++ "Id-9" ++ "\x7d") handlerA).routes =
      [("GET", [("^/users/([a-z0-9-_]+)$", ⟨handlerA, []⟩)])] :=
  ⟨by decide, by decide,
   c5_amended_charset_detection "Id-9" handlerA (by decide) (by decide)⟩

/-! ## Empty parameter segments never match (claim C7) -/

/-- C7: with only the pattern route `/users/{name}` registered under GET
(for any valid placeholder name), dispatching `/users/` (empty parameter
segment) or `/users` (missing segment) resolves to the not-found handler:
the capture group requires one or more characters from its charset. -/
theorem c7_empty_param_not_found (name : String) (h : RequestHandler)
    (hne : name.data ≠ []) (hchars : ∀ c ∈ name.data, placeholderCharCI c = true) :
    findReqHandler (RegisterRoute NewRouter "GET" ("/users/\x7b" ++ name ++ "\x7d") h)
      ⟨"GET", "/users/"⟩ = some (routeNotFoundHandler, none) ∧
    findReqHandler (RegisterRoute NewRouter "GET" ("/users/\x7b" ++ name ++ "\x7d") h)
      ⟨"GET", "/users"⟩ = some (routeNotFoundHandler, none) := by
  rw [register_users_param name h hne hchars]
  exact ⟨rfl, rfl⟩

/-- Witness for C7 at the name `id`. -/
theorem c7_empty_param_not_found_witness :
    ("id" : String).data ≠ [] ∧
    (∀ c ∈ ("id" : String).data, placeholderCharCI c = true) ∧
    findReqHandler (RegisterRoute NewRouter "GET" ("/users/\x7b" ++ "id" ++ "\x7d") handlerA)
      ⟨"GET", "/users/"⟩ = some (routeNotFoundHandler, none) :=
  ⟨by decide, by decide,
   (c7_empty_param_not_found "id" handlerA (by decide) (by decide)).1⟩

/-! ## Dispatch claims -/

/-- C1 (recording the code bug): with only the literal route GET `/users`
registered, dispatching GET `/users/123` does not resolve to the not-found
handler.  The fallback in `findReqHandler` iterates every key of the method's
map — literal keys included — and a literal key, being unanchored, matches as
a case-insensitive substring, so the `/users` handler is returned and its
response (body `A`, no 404 status) is served; the third equation shows the
404 response this request would have produced had it resolved to not-found. -/
theorem c1_literal_substring_match :
    findReqHandler (RegisterRoute NewRouter "GET" "/users" handlerA)
      ⟨"GET", "/users/123"⟩ = some (handlerA, none) ∧
    ServeHTTP (RegisterRoute NewRouter "GET" "/users" handlerA)
      ⟨"GET", "/users/123"⟩ newResponseWriter = .completed ⟨[], none, "A"⟩ ∧
    ServeHTTP NewRouter ⟨"GET", "/users/123"⟩ newResponseWriter =
      .completed ⟨[("Content-Type", "text/plain")], some 404, "404 - Page not found\n"⟩ :=
  ⟨rfl, rfl, rfl⟩

/-- C2: whenever the request path is present verbatim as a key under the
request method, `findReqHandler` returns that entry's handler (with a nil
error), regardless of any other registered route — the equation does not
depend on the rest of the method's map, so no pattern is ever consulted. -/
theorem c2_exact_match_precedence (r : Router) (m p : String)
    (sub : List (String × RequestHandlerPackage)) (pkg : RequestHandlerPackage)
    (h1 : mapLookup r.routes m = some sub) (h2 : mapLookup sub p = some pkg) :
    findReqHandler r ⟨m, p⟩ = some (pkg.Handler, none) := by
  unfold findReqHandler
  rw [h1]
  simp only []
  rw [h2]

/-- Witness for C2: a router where a pattern route would also structurally
match `/users/abc`, yet the literal registration wins. -/
theorem c2_exact_match_precedence_witness :
    mapLookup (RegisterRoute (RegisterRoute NewRouter "GET" "/users/{id}" handlerB)
        "GET" "/users/abc" handlerA).routes "GET" =
      some [("^/users/([a-z0-9-_]+)$", ⟨handlerB, []⟩), ("/users/abc", ⟨handlerA, []⟩)] ∧
    mapLookup [("^/users/([a-z0-9-_]+)$", (⟨handlerB, []⟩ : RequestHandlerPackage)),
        ("/users/abc", ⟨handlerA, []⟩)] "/users/abc" = some ⟨handlerA, []⟩ ∧
    findReqHandler (RegisterRoute (RegisterRoute NewRouter "GET" "/users/{id}" handlerB)
        "GET" "/users/abc" handlerA) ⟨"GET", "/users/abc"⟩ = some (handlerA, none) :=
  ⟨rfl, rfl,
   c2_exact_match_precedence
     (RegisterRoute (RegisterRoute NewRouter "GET" "/users/{id}" handlerB)
       "GET" "/users/abc" handlerA)
     "GET" "/users/abc"
     [("^/users/([a-z0-9-_]+)$", ⟨handlerB, []⟩), ("/users/abc", ⟨handlerA, []⟩)]
     ⟨handlerA, []⟩ rfl rfl⟩

/-- C4: whenever resolution produces the built-in not-found handler, serving
the request writes exactly the 404 response: Content-Type text/plain, status
404, body `404 - Page not found` followed by a newline. -/
theorem c4_not_found_response (r : Router) (req : Request)
    (h : findReqHandler r req = some (routeNotFoundHandler, none)) :
    ServeHTTP r req newResponseWriter =
      .completed ⟨[("Content-Type", "text/plain")], some 404, "404 - Page not found\n"⟩ := by
  unfold ServeHTTP
  rw [h]
  rfl

/-- Witness for C4 on a router with no routes at all. -/
theorem c4_not_found_response_witness :
    findReqHandler NewRouter ⟨"GET", "/anything"⟩ = some (routeNotFoundHandler, none) ∧
    ServeHTTP NewRouter ⟨"GET", "/anything"⟩ newResponseWriter =
      .completed ⟨[("Content-Type", "text/plain")], some 404, "404 - Page not found\n"⟩ :=
  ⟨rfl, c4_not_found_response NewRouter ⟨"GET", "/anything"⟩ rfl⟩

/-- C8: a request whose method has no entry in the route table resolves to the
not-found handler for every path, and the very same value is returned for a
known method whose path misses every key (exact lookup fails and the pattern
scan reports no match). -/
theorem c8_unknown_method_eq_unmatched_path :
    (∀ (r : Router) (m p : String), mapLookup r.routes m = none →
      findReqHandler r ⟨m, p⟩ = some (routeNotFoundHandler, none)) ∧
    (∀ (r : Router) (m p q : String) (sub : List (String × RequestHandlerPackage)),
      mapLookup r.routes m = some sub →
      mapLookup sub p = none →
      matchRoutePattern (sub.map Prod.fst) p = some (q, false) →
      findReqHandler r ⟨m, p⟩ = some (routeNotFoundHandler, none)) := by
  constructor
  · intro r m p h
    unfold findReqHandler
    rw [h]
  · intro r m p q sub h1 h2 h3
    unfold findReqHandler
    rw [h1]
    simp only []
    rw [h2]
    simp only []
    rw [h3]
    rfl

/-- Witness for C8: an empty router (unknown method), and a router whose only
GET route is the `/users/{id}` pattern probed with the unmatched path
`/posts/7`. -/
theorem c8_unknown_method_eq_unmatched_path_witness :
    findReqHandler NewRouter ⟨"GET", "/x"⟩ = some (routeNotFoundHandler, none) ∧
    findReqHandler (RegisterRoute NewRouter "GET" "/users/{id}" handlerA)
      ⟨"GET", "/posts/7"⟩ = some (routeNotFoundHandler, none) :=
  ⟨c8_unknown_method_eq_unmatched_path.1 NewRouter "GET" "/x" rfl,
   c8_unknown_method_eq_unmatched_path.2
     (RegisterRoute NewRouter "GET" "/users/{id}" handlerA)
     "GET" "/posts/7" ""
     [("^/users/([a-z0-9-_]+)$", ⟨handlerA, []⟩)] rfl rfl rfl⟩

/-- Whenever `findReqHandler` returns (rather than propagating the modelled
`MustCompile` panic), the returned error component is nil. -/
theorem findReqHandler_error_nil (r : Router) (req : Request)
    (res : RequestHandler × Option String)
    (h : findReqHandler r req = some res) : res.2 = none := by
  unfold findReqHandler at h
  cases h1 : mapLookup r.routes req.method with
  | none =>
    rw [h1] at h
    cases h
    rfl
  | some sub =>
    rw [h1] at h
    simp only [] at h
    cases h2 : mapLookup sub req.path with
    | some pkg =>
      rw [h2] at h
      cases h
      rfl
    | none =>
      rw [h2] at h
      simp only [] at h
      cases h3 : matchRoutePattern (sub.map Prod.fst) req.path with
      | none => rw [h3] at h; cases h
      | some pb =>
        obtain ⟨pth, b⟩ := pb
        rw [h3] at h
        simp only [] at h
        cases b with
        | true => simp only [ite_true] at h; cases h; rfl
        | false => simp only [Bool.false_eq_true, if_neg, ite_false] at h; cases h; rfl

/-- C9: on every return path `findReqHandler` yields a handler together with a
nil error, so the `Log.FatalError` branch of `ServeHTTP` is unreachable and
every completed dispatch runs exactly the resolved handler. -/
theorem c9_error_always_nil :
    ∀ (r : Router) (req : Request),
      ((findReqHandler r req).all fun res => res.2.isNone) = true ∧
      ∀ rw : ResponseWriter, isFatalOutcome (ServeHTTP r req rw) = false := by
  intro r req
  constructor
  · cases h : findReqHandler r req with
    | none => rfl
    | some res =>
      have := findReqHandler_error_nil r req res h
      simp [Option.all, this]
  · intro rw
    unfold ServeHTTP
    cases h : findReqHandler r req with
    | none => rfl
    | some res =>
      obtain ⟨hh, he⟩ := res
      have := findReqHandler_error_nil r req (hh, he) h
      simp only at this
      subst this
      rfl

/-- If every key of the iterated map compiles, the pattern scan cannot
panic. -/
theorem matchRoutePattern_isSome (keys : List String) (path : String)
    (h : ∀ k ∈ keys, (compileKey k).isSome = true) :
    (matchRoutePattern keys path).isSome = true := by
  induction keys with
  | nil => rfl
  | cons k rest ih =>
    have hk := h k (by simp)
    unfold matchRoutePattern
    cases hc : compileKey k with
    | none => rw [hc] at hk; cases hk
    | some cr =>
      cases hf : findStringNonEmpty cr path with
      | true => simp [hf]
      | false =>
        simp only [hf, Bool.false_eq_true, if_neg, ite_false]
        exact ih (fun q hq => h q (by simp [hq]))

/-- C10: the fallback compiles every stored key at dispatch time.  A literal
path containing an unmatched `(` is stored verbatim; with such a key under a
method, any request under that method that misses the exact-match lookup makes
`regexp.MustCompile` panic (modelled `none`).  Conversely, when every key of
the method's map compiles, dispatch always returns a handler. -/
theorem c10_dispatch_compiles_keys :
    (∀ h : RequestHandler, RegisterRoute NewRouter "GET" "/bad(" h =
      ⟨[("GET", [("/bad(", ⟨h, []⟩)])]⟩) ∧
    (∀ (h : RequestHandler) (p : String), p ≠ "/bad(" →
      findReqHandler (RegisterRoute NewRouter "GET" "/bad(" h) ⟨"GET", p⟩ = none) ∧
    (∀ (r : Router) (req : Request),
      (∀ k ∈ ((mapLookup r.routes req.method).getD []).map Prod.fst,
        (compileKey k).isSome = true) →
      (findReqHandler r req).isSome = true) := by
  refine ⟨fun _ => rfl, ?_, ?_⟩
  · intro h p hp
    have hreg : RegisterRoute NewRouter "GET" "/bad(" h =
        ⟨[("GET", [("/bad(", ⟨h, []⟩)])]⟩ := rfl
    rw [hreg]
    unfold findReqHandler
    have hm : mapLookup ([("GET", [("/bad(", (⟨h, []⟩ : RequestHandlerPackage))])] :
        RequestHandlerMap) "GET" = some [("/bad(", ⟨h, []⟩)] := rfl
    rw [hm]
    have hmiss : mapLookup [("/bad(", (⟨h, []⟩ : RequestHandlerPackage))] p = none := by
      unfold mapLookup
      rw [if_neg (fun hq => hp hq.symm)]
      rfl
    simp only []
    rw [hmiss]
    rfl
  · intro r req hkeys
    unfold findReqHandler
    cases h1 : mapLookup r.routes req.method with
    | none => rfl
    | some sub =>
      have hsome : (matchRoutePattern (sub.map Prod.fst) req.path).isSome = true := by
        apply matchRoutePattern_isSome
        intro k hk
        apply hkeys
        rw [h1]
        exact hk
      simp only []
      cases h2 : mapLookup sub req.path with
      | some pkg => simp
      | none =>
        cases h3 : matchRoutePattern (sub.map Prod.fst) req.path with
        | none => rw [h3] at hsome; cases hsome
        | some pb =>
          obtain ⟨pth, b⟩ := pb
          cases b with
          | true => simp [h3]
          | false => simp [h3]

/-- Witness for C10: the `/bad(` router panics on `/x`, and the empty router
(no keys to compile) always returns a handler. -/
theorem c10_dispatch_compiles_keys_witness :
    ("/x" : String) ≠ "/bad(" ∧
    findReqHandler (RegisterRoute NewRouter "GET" "/bad(" handlerA) ⟨"GET", "/x"⟩ = none ∧
    (findReqHandler NewRouter ⟨"GET", "/x"⟩).isSome = true :=
  ⟨by decide,
   c10_dispatch_compiles_keys.2.1 handlerA "/x" (by decide),
   c10_dispatch_compiles_keys.2.2 NewRouter ⟨"GET", "/x"⟩
     (by intro k hk; simp [NewRouter, mapLookup] at hk)⟩

/-! ## The part_001 scanner (claim C6) -/

theorem scanParamsAux_lit (l : List Char)
    (hl : ∀ c ∈ l, c ≠ '/' ∧ c ≠ '{' ∧ c ≠ '}') (r : List Char) (i : Nat)
    (st : ScanState) (hf : st.found = false) :
    scanParamsAux i st (l ++ r) = scanParamsAux (i + l.length) st r := by
  induction l generalizing i with
  | nil => simp [scanParamsAux]
  | cons c cs ih =>
    have hc := hl c (by simp)
    have hstep : scanStep i st c = st := by
      simp [scanStep, beq_eq_false_iff_ne.mpr hc.1, beq_eq_false_iff_ne.mpr hc.2.1,
        beq_eq_false_iff_ne.mpr hc.2.2, hf]
    simp only [List.cons_append, scanParamsAux, List.append_eq]
    rw [hstep, ih (fun d hd => hl d (by simp [hd])) (i + 1)]
    have harith : i + 1 + cs.length = i + (c :: cs).length := by
      simp [List.length_cons]
      omega
    rw [harith]

theorem scanParamsAux_run (nm : List Char)
    (hnm : ∀ c ∈ nm, placeholderCharCI c = true) (r : List Char) (i : Nat)
    (st : ScanState) (hf : st.found = true) :
    scanParamsAux i st (nm ++ '}' :: r) =
      scanParamsAux (i + nm.length + 1)
        { st with found := false
                , params := st.params ++
                    [⟨st.foundAt, i + nm.length, st.pathDepth,
                      String.mk (st.nameBuilder ++ nm)⟩]
                , nameBuilder := [] } r := by
  induction nm generalizing i st with
  | nil =>
    simp only [List.nil_append, scanParamsAux]
    have hstep : scanStep i st '}' =
        { st with found := false
                , params := st.params ++
                    [⟨st.foundAt, i, st.pathDepth, String.mk st.nameBuilder⟩]
                , nameBuilder := [] } := by
      simp [scanStep]
    rw [hstep]
    simp
  | cons c cs ih =>
    have hcp := hnm c (by simp)
    have hc := placeholderCharCI_not_special c hcp
    have hstep : scanStep i st c = { st with nameBuilder := st.nameBuilder ++ [c] } := by
      simp [scanStep, beq_eq_false_iff_ne.mpr hc.2.2, beq_eq_false_iff_ne.mpr hc.1,
        beq_eq_false_iff_ne.mpr hc.2.1, hf]
    simp only [List.cons_append, scanParamsAux, List.append_eq]
    rw [hstep, ih (fun d hd => hnm d (by simp [hd])) (i + 1)
      { st with nameBuilder := st.nameBuilder ++ [c] } hf]
    have harith : i + 1 + cs.length = i + (c :: cs).length := by
      simp [List.length_cons]
      omega
    have hname : st.nameBuilder ++ [c] ++ cs = st.nameBuilder ++ c :: cs := by simp
    rw [harith]
    simp only []
    rw [hname]

theorem scanParamsAux_segs (segs : List PathSeg)
    (hwf : ∀ s ∈ segs, wfSeg s = true) (i : Nat) (st : ScanState)
    (hf : st.found = false) (hb : st.nameBuilder = []) :
    ∃ ps fa,
      scanParamsAux i st (renderPathChars segs) =
        ⟨st.params ++ ps, st.pathDepth + segs.length, false, fa, []⟩ ∧
      ps.map (fun p => (p.pos, p.name)) = expectedParams segs st.pathDepth := by
  induction segs generalizing i st with
  | nil =>
    refine ⟨[], st.foundAt, ?_, rfl⟩
    cases st
    simp_all [renderPathChars, scanParamsAux]
  | cons seg rest ih =>
    have hslash : scanStep i st '/' = { st with pathDepth := st.pathDepth + 1 } := by
      simp [scanStep, hf]
    cases seg with
    | litSeg s =>
      have hs : ∀ c ∈ s.data, c ≠ '/' ∧ c ≠ '{' ∧ c ≠ '}' := by
        intro c hcm
        have := List.all_eq_true.mp (hwf (.litSeg s) (by simp)) c hcm
        simp only [Bool.not_eq_true', Bool.or_eq_false_iff] at this
        refine ⟨?_, ?_, ?_⟩ <;> rintro rfl <;> simp at this
      obtain ⟨ps, fa, heq, hmap⟩ := ih (fun t ht => hwf t (by simp [ht]))
        (i + 1 + s.data.length) { st with pathDepth := st.pathDepth + 1 } hf hb
      refine ⟨ps, fa, ?_, hmap⟩
      simp only [renderPathChars, segText, List.cons_append, scanParamsAux, List.append_eq]
      rw [hslash]
      rw [scanParamsAux_lit s.data hs (renderPathChars rest) (i + 1)
        { st with pathDepth := st.pathDepth + 1 } hf]
      rw [heq]
      dsimp only
      simp only [ScanState.mk.injEq, List.length_cons, and_true, true_and]
      push_cast
      ring
    | paramSeg nm =>
      have hnm : ∀ c ∈ nm.data, placeholderCharCI c = true := by
        have := hwf (.paramSeg nm) (by simp)
        simp only [wfSeg, Bool.and_eq_true] at this
        exact List.all_eq_true.mp this.2
      obtain ⟨ps, fa, heq, hmap⟩ := ih (fun t ht => hwf t (by simp [ht]))
        (i + 2 + nm.data.length + 1)
        { st with pathDepth := st.pathDepth + 1
                , found := false
                , foundAt := i + 1
                , params := st.params ++
                    [⟨i + 1, i + 2 + nm.data.length, st.pathDepth + 1, nm⟩]
                , nameBuilder := [] } rfl rfl
      refine ⟨⟨i + 1, i + 2 + nm.data.length, st.pathDepth + 1, nm⟩ :: ps, fa, ?_, ?_⟩
      · simp only [renderPathChars, segText, List.cons_append, List.append_assoc,
          List.singleton_append, List.nil_append, scanParamsAux]
        rw [hslash]
        have hbrace : scanStep (i + 1) { st with pathDepth := st.pathDepth + 1 } '{' =
            { st with pathDepth := st.pathDepth + 1, found := true, foundAt := i + 1 } := by
          simp [scanStep]
        rw [hbrace]
        simp only [List.append_eq, List.append_assoc, List.singleton_append]
        rw [show (i + 1 + 1) = i + 2 from rfl]
        rw [scanParamsAux_run nm.data hnm (renderPathChars rest) (i + 2)
          { st with pathDepth := st.pathDepth + 1, found := true, foundAt := i + 1 } rfl]
        dsimp only
        rw [hb]
        simp only [List.nil_append]
        rw [show String.mk nm.data = nm from rfl]
        rw [heq]
        dsimp only
        simp only [ScanState.mk.injEq, List.length_cons, List.append_assoc,
          List.cons_append, List.singleton_append, List.nil_append, and_true, true_and]
        push_cast
        ring
      · simp only [List.map_cons, hmap]
        rfl

theorem expectedParams_keys_gt (segs : List PathSeg) (d : Int) :
    ∀ k ∈ (expectedParams segs d).map Prod.fst, d < k := by
  induction segs generalizing d with
  | nil => intro k hk; simp [expectedParams] at hk
  | cons seg rest ih =>
    cases seg with
    | litSeg s =>
      intro k hk
      have := ih (d + 1) k hk
      omega
    | paramSeg nm =>
      intro k hk
      simp only [expectedParams, List.map_cons, List.mem_cons] at hk
      rcases hk with h | h
      · omega
      · have := ih (d + 1) k h
        omega

theorem expectedParams_keys_nodup (segs : List PathSeg) (d : Int) :
    ((expectedParams segs d).map Prod.fst).Nodup := by
  induction segs generalizing d with
  | nil => simp [expectedParams]
  | cons seg rest ih =>
    cases seg with
    | litSeg s => exact ih (d + 1)
    | paramSeg nm =>
      simp only [expectedParams, List.map_cons, List.nodup_cons]
      refine ⟨?_, ih (d + 1)⟩
      intro hmem
      have := expectedParams_keys_gt rest (d + 1) (d + 1) hmem
      omega

theorem expectedParams_mem (segs : List PathSeg) (d : Int) (j : Nat) (nm : String)
    (hj : segs[j]? = some (.paramSeg nm)) :
    (d + 1 + j, nm) ∈ expectedParams segs d := by
  induction segs generalizing d j with
  | nil => simp at hj
  | cons seg rest ih =>
    cases seg with
    | litSeg s =>
      cases j with
      | zero => simp at hj
      | succ j' =>
        have hj' : rest[j']? = some (.paramSeg nm) := by simpa using hj
        have := ih (d + 1) j' hj'
        have harith : (d + 1) + 1 + (j' : Int) = d + 1 + ((j' + 1 : Nat) : Int) := by
          push_cast
          ring
        rw [harith] at this
        simpa [expectedParams] using this
    | paramSeg nm2 =>
      cases j with
      | zero =>
        have : nm2 = nm := by simpa using hj
        subst this
        simp [expectedParams]
      | succ j' =>
        have hj' : rest[j']? = some (.paramSeg nm) := by simpa using hj
        have := ih (d + 1) j' hj'
        have harith : (d + 1) + 1 + (j' : Int) = d + 1 + ((j' + 1 : Nat) : Int) := by
          push_cast
          ring
        rw [harith] at this
        simp only [expectedParams, List.mem_cons]
        exact Or.inr this

theorem foldl_buildStep_paramMap (path : List Char) (ps : List ParamSearch)
    (bs : BuildState) :
    (ps.foldl (buildStep path) bs).paramMap =
      ps.foldl (fun m p => mapInsert m p.pos p.name) bs.paramMap := by
  induction ps generalizing bs with
  | nil => rfl
  | cons p rest ih =>
    simp only [List.foldl_cons]
    rw [ih]
    rfl

theorem foldl_insert_posName (ps : List ParamSearch) (m : List (Int × String)) :
    ps.foldl (fun acc p => mapInsert acc p.pos p.name) m =
      (ps.map fun p => (p.pos, p.name)).foldl (fun acc q => mapInsert acc q.1 q.2) m := by
  induction ps generalizing m with
  | nil => rfl
  | cons p rest ih =>
    simp only [List.foldl_cons, List.map_cons]
    rw [ih]

/-- C6: for every well-formed structured path with a placeholder at segment
index `j` (zero-based, counting `/`-delimited segments from the left), the
`ParamList` stored by the part_001 `RegisterRoute` maps depth `j` to that
placeholder's name; and the route entry stored under the method carries
exactly that map. -/
theorem c6_param_map_depths (segs : List PathSeg) (j : Nat) (nm : String)
    (hwf : ∀ s ∈ segs, wfSeg s = true)
    (hj : segs[j]? = some (.paramSeg nm)) :
    mapLookup (buildRouteV2 (renderPath segs)).2 (j : Int) = some nm ∧
    ∀ (r : Router) (m : HttpRequestMethod) (h : RequestHandler),
      (RegisterRouteV2 r m (renderPath segs) h).routes =
        routesInsert r.routes m (buildRouteV2 (renderPath segs)).1
          ⟨h, (buildRouteV2 (renderPath segs)).2⟩ := by
  constructor
  · obtain ⟨ps, fa, heq, hmap⟩ :=
      scanParamsAux_segs segs hwf 0 ⟨[], -1, false, 0, []⟩ rfl rfl
    have hscan : (scanParams (renderPath segs).data).params = ps := by
      have hd : (renderPath segs).data = renderPathChars segs := rfl
      unfold scanParams
      rw [hd, heq]
      simp
    have hv2 : (buildRouteV2 (renderPath segs)).2 =
        ((scanParams (renderPath segs).data).params.foldl
          (buildStep (renderPath segs).data) ⟨[], 0, []⟩).paramMap := rfl
    rw [hv2, hscan, foldl_buildStep_paramMap, foldl_insert_posName, hmap]
    have hmem := expectedParams_mem segs (-1) j nm hj
    have harith : (-1 : Int) + 1 + (j : Int) = (j : Int) := by ring
    rw [harith] at hmem
    exact mapLookup_foldl_insert_mem (expectedParams segs (-1)) [] (j : Int) nm
      hmem (expectedParams_keys_nodup segs (-1))
  · intro r m h
    rfl

/-- Witness for C6 at the concrete path `/posts/{postid}/comments/{commentid}`
and its second placeholder, at segment depth 3. -/
theorem c6_param_map_depths_witness :
    (∀ s ∈ [PathSeg.litSeg "posts", PathSeg.paramSeg "postid",
        PathSeg.litSeg "comments", PathSeg.paramSeg "commentid"], wfSeg s = true) ∧
    [PathSeg.litSeg "posts", PathSeg.paramSeg "postid", PathSeg.litSeg "comments",
        PathSeg.paramSeg "commentid"][3]? = some (PathSeg.paramSeg "commentid") ∧
    mapLookup (buildRouteV2 (renderPath [PathSeg.litSeg "posts", PathSeg.paramSeg "postid",
        PathSeg.litSeg "comments", PathSeg.paramSeg "commentid"])).2 ((3 : Nat) : Int) =
      some "commentid" :=
  ⟨by decide, by decide,
   (c6_param_map_depths [PathSeg.litSeg "posts", PathSeg.paramSeg "postid",
      PathSeg.litSeg "comments", PathSeg.paramSeg "commentid"] 3 "commentid"
      (by decide) (by decide)).1⟩

end Yagaw
